import Mathlib

/-!
# Verification of `bouter.free` (`FreelySwimmingExperiment`)

Shallow embedding of `src/bouter/free/__init__.py`.

Modelling conventions:
* A pandas value is `Option ℚ`: `none` models NaN (and other non-finite
  floats, which the claims never touch); `some q` a finite float, with exact
  rational arithmetic in place of IEEE arithmetic.
* A `DataFrame` is an ordered list of named columns (`Table`); rows are the
  positions inside each column's value list.  `behavior_log` has the default
  `RangeIndex`, so label- and position-based slicing coincide and both are
  modelled positionally.
* Python exceptions (missing column / out-of-bounds access) are modelled by
  `Except String`; operations that mutate a fresh pandas object
  (`DataFrame.interpolate`, `DataFrame.filter` and `rename` return copies)
  are modelled as pure functions returning the new table.
* `bouter.utilities.extract_segments_above_threshold` and `get_scale_mm` are
  not part of the provided sources; the former is modelled from the spec
  (see its doc comment), the latter is an experiment-supplied constant
  (`scale_mm` field).
-/

set_option maxRecDepth 10000

set_option allowUnsafeReducibility true in
attribute [semireducible] Rat.add Rat.sub Rat.mul Rat.inv Rat.div Rat.neg Rat.ofScientific

/-- A pandas/numpy scalar: `none` is NaN, `some q` a finite float. -/
abbrev OQ := Option ℚ

/-- NaN-propagating addition. -/
def qadd : OQ → OQ → OQ
  | some a, some b => some (a + b)
  | _, _ => none

/-- NaN-propagating subtraction. -/
def qsub : OQ → OQ → OQ
  | some a, some b => some (a - b)
  | _, _ => none

/-- NaN-propagating multiplication. -/
def qmul : OQ → OQ → OQ
  | some a, some b => some (a * b)
  | _, _ => none

/-- NaN-propagating division.  Division by an exact zero yields a non-finite
float in numpy; all non-finite results are collapsed to `none` here (no claim
exercises the inf/NaN distinction). -/
def qdiv : OQ → OQ → OQ
  | some a, some b => if b = 0 then none else some (a / b)
  | _, _ => none

/-- `v > thr` as numpy evaluates it: any comparison with NaN is `False`. -/
def qgt (v : OQ) (thr : ℚ) : Bool :=
  match v with
  | some a => decide (thr < a)
  | none => false

/-- One DataFrame column: a name and the per-row values. -/
structure Column where
  name : String
  vals : List OQ
  deriving DecidableEq, Repr

/-- A DataFrame: ordered list of named columns (names assumed unique, as they
are in a tracking log). -/
abbrev Table := List Column

/-- Column lookup (`df[name]` / attribute access), first match. -/
def getCol : Table → String → Option Column
  | [], _ => none
  | c :: rest, nm => if c.name = nm then some c else getCol rest nm

/-- Column lookup that raises like Python (`KeyError`/`AttributeError`). -/
def getColE (df : Table) (nm : String) : Except String Column :=
  match getCol df nm with
  | some c => Except.ok c
  | none => Except.error ("KeyError: " ++ nm)

/-- Whether a column of this name exists. -/
def hasCol (df : Table) (nm : String) : Bool :=
  (getCol df nm).isSome

/-- Number of rows (`df.shape[0]`); columns of a real DataFrame all share this
length. -/
def nRows (df : Table) : Nat :=
  match df with
  | [] => 0
  | c :: _ => c.vals.length

/-- All columns have the row count of the table. -/
def uniform (df : Table) : Bool :=
  df.all (fun c => c.vals.length == nRows df)

/-- Replace the values of the (unique) column called `nm`, keeping its
position. -/
def replaceCol : Table → String → List OQ → Table
  | [], _, _ => []
  | c :: rest, nm, vs =>
    if c.name = nm then ⟨c.name, vs⟩ :: replaceCol rest nm vs
    else c :: replaceCol rest nm vs

/-- `df[nm] = vs`: overwrite an existing column in place, else append a new
column at the end (pandas semantics).  pandas would reject a length mismatch;
that can only arise here for an empty log (see `recalcVelCol`), a degenerate
case the theorems exclude. -/
def setCol (df : Table) (nm : String) (vs : List OQ) : Table :=
  if hasCol df nm then replaceCol df nm vs else df ++ [⟨nm, vs⟩]

/-- `df.iloc[s:e]` row slice (clipping, half-open). -/
def sliceRows (df : Table) (s e : Nat) : Table :=
  df.map (fun c => ⟨c.name, (c.vals.drop s).take (e - s)⟩)

/-- `df.filter(items)`: keep the listed columns that exist, in `items` order
(pandas orders the result by `items`). -/
def filterItems (df : Table) : List String → Table
  | [] => []
  | nm :: rest =>
    match getCol df nm with
    | some c => c :: filterItems df rest
    | none => filterItems df rest

/-- Values of a named column, if present. -/
def colVals (df : Table) (nm : String) : Option (List OQ) :=
  (getCol df nm).map Column.vals

/-- `"f{:d}_{suffix}".format(i)`. -/
def fishColName (i : Nat) (suffix : String) : String :=
  "f" ++ toString i ++ "_" ++ suffix

/-- `"{:02d}".format(k)`. -/
def pad2 (k : Nat) : String :=
  if k < 10 then "0" ++ toString k else toString k

/-- `FreelySwimmingExperiment._fish_column_names`. -/
def fish_column_names (i n_segments : Nat) : List String :=
  [fishColName i "x", fishColName i "vx", fishColName i "y",
   fishColName i "vy", fishColName i "theta", fishColName i "vtheta"] ++
    (List.range n_segments).map (fun k => fishColName i ("theta_" ++ pad2 k))

/-- `FreelySwimmingExperiment._fish_renames`, as an association list. -/
def fish_renames (i n_segments : Nat) : List (String × String) :=
  [(fishColName i "x", "x"), (fishColName i "vx", "vx"),
   (fishColName i "y", "y"), (fishColName i "vy", "vy"),
   (fishColName i "theta", "theta"), (fishColName i "vtheta", "vtheta")] ++
    (List.range n_segments).map
      (fun k => (fishColName i ("theta_" ++ pad2 k), "theta_" ++ pad2 k))

/-- Apply a rename map to one column name (`DataFrame.rename` leaves unmapped
names unchanged). -/
def applyRenames (ren : List (String × String)) (nm : String) : String :=
  match ren.find? (fun p => p.1 = nm) with
  | some p => p.2
  | none => nm

/-- `FreelySwimmingExperiment._rename_fish`:
`df.filter(["t"] + fish_column_names).rename(columns=fish_renames)`.
Columns absent from `df` are silently dropped by `filter`, and `rename`
ignores missing keys: no validation happens here. -/
def rename_fish (df : Table) (i n_segments : Nat) : Table :=
  (filterItems df ("t" :: fish_column_names i n_segments)).map
    (fun c => ⟨applyRenames (fish_renames i n_segments) c.name, c.vals⟩)

/-- Positional unit scaling of one column of a bout, position `k`:
`bout.iloc[:, 1:5] *= scale` then `bout.iloc[:, 2:7:2] /= dt`
(the two in-place statements of `_extract_bout`, fused per column in source
order). -/
def scaleCol (k : Nat) (scale : ℚ) (dt : OQ) (c : Column) : Column :=
  let c1 := if 1 ≤ k ∧ k < 5 then ⟨c.name, c.vals.map (fun v => qmul v (some scale))⟩ else c
  if k = 2 ∨ k = 4 ∨ k = 6 then ⟨c1.name, c1.vals.map (fun v => qdiv v dt)⟩ else c1

/-- Apply `scaleCol` to the columns starting at position `j`. -/
def scaleColsFrom (j : Nat) (scale : ℚ) (dt : OQ) : Table → Table
  | [] => []
  | c :: rest => scaleCol j scale dt c :: scaleColsFrom (j + 1) scale dt rest

/-- The unit-conversion step of `_extract_bout` (lines 24-27): positions
multiplied by `scale` (columns 1-4), velocities additionally divided by the
time step (columns 2, 4, 6). -/
def scaleCols (bout : Table) (scale : ℚ) (dt : OQ) : Table :=
  scaleColsFrom 0 scale dt bout

/-- `FreelySwimmingExperiment._extract_bout(s, e, n_segments, i_fish, scale,
dt)`.  Slices the behavior log, renames the fish's columns to canonical names,
estimates `dt = (t[-1] - t[0]) / shape[0]` over the bout when none is given
(raising `AttributeError`/`IndexError` as Python would if `t` is missing or
the slice empty), then rescales positionally. -/
def extract_bout (df : Table) (s e n_segments i_fish : Nat) (scale : ℚ)
    (dt : Option ℚ) : Except String Table :=
  let bout := rename_fish (sliceRows df s e) i_fish n_segments
  match dt with
  | some d => Except.ok (scaleCols bout scale (some d))
  | none =>
    match getColE bout "t" with
    | Except.error e => Except.error e
    | Except.ok tc =>
      match tc.vals.getLast?, tc.vals.head? with
      | some tl, some t0 =>
        Except.ok (scaleCols bout scale (qdiv (qsub tl t0) (some (nRows bout : ℚ))))
      | _, _ => Except.error "IndexError: index -1 is out of bounds"

/-- Index (from position `k - 1` downward) and value of the nearest valid
entry strictly before position `k`, if any. -/
def prevValid (vals : List OQ) : Nat → Option (Nat × ℚ)
  | 0 => none
  | j + 1 =>
    match vals.getD j none with
    | some a => some (j, a)
    | none => prevValid vals j

/-- First valid entry of a list, with its absolute position given the
position `j` of the list head. -/
def findValidFrom : List OQ → Nat → Option (Nat × ℚ)
  | [], _ => none
  | some a :: _, j => some (j, a)
  | none :: rest, j => findValidFrom rest (j + 1)

/-- Index and value of the nearest valid entry strictly after position `k`. -/
def nextValid (vals : List OQ) (k : Nat) : Option (Nat × ℚ) :=
  findValidFrom (vals.drop (k + 1)) (k + 1)

/-- `Series.interpolate("linear", limit, limit_area="inside")` on one column:
a NaN at position `k` is filled iff it has a valid neighbour on both sides
(`limit_area="inside"`) and is among the first `limit` NaNs of its gap (the
default forward `limit_direction`); `method="linear"` interpolates on
positions, ignoring the index values. -/
def interpVals (limit : Nat) (vals : List OQ) : List OQ :=
  (List.range vals.length).map (fun k =>
    match vals.getD k none with
    | some a => some a
    | none =>
      match prevValid vals k, nextValid vals k with
      | some pa, some qb =>
        if k - pa.1 ≤ limit then
          some (pa.2 + (qb.2 - pa.2) * ((k : ℚ) - (pa.1 : ℚ)) / ((qb.1 : ℚ) - (pa.1 : ℚ)))
        else none
      | _, _ => none)

/-- `df.interpolate("linear", limit=max_interpolate, limit_area="inside")`:
column-wise, returning a fresh table. -/
def interpolateTable (limit : Nat) (df : Table) : Table :=
  df.map (fun c => ⟨c.name, interpVals limit c.vals⟩)

/-- `np.diff`: consecutive differences (next minus current). -/
def diffO : List OQ → List OQ
  | a :: b :: rest => qsub b a :: diffO (b :: rest)
  | _ => []

/-- `np.mean`: NaN on the empty array, NaN-propagating otherwise. -/
def meanO (l : List OQ) : OQ :=
  match l with
  | [] => none
  | _ => qdiv (l.foldl qadd (some 0)) (some (l.length : ℚ))

/-- The single global time step of `extract_bouts`:
`np.mean(np.diff(df.t[100:200]))` — the mean of the consecutive timestamp
differences over frames 100..199 only (positional slice; `behavior_log` has
the default `RangeIndex`). -/
def globalDt (tvals : List OQ) : OQ :=
  meanO (diffO ((tvals.drop 100).take 100))

/-- `np.r_[np.diff(pos), 0]`: the recomputed velocity channel — forward
difference, last frame set to 0.  (For a 0-row log the result has length 1
and pandas would reject the assignment; theorems over the pipeline assume at
least one frame.) -/
def recalcVelCol (xs : List OQ) : List OQ :=
  diffO xs ++ [some 0]

/-- The `recalculate_vel` block for one fish: for `thing` in
`["x", "y", "theta"]`, set `f{i}_v{thing}` to the forward difference of
`f{i}_{thing}` (raising `KeyError` if the source column is absent). -/
def recalcFish (dfint : Table) (i : Nat) : Except String Table :=
  match getColE dfint (fishColName i "x") with
  | Except.error e => Except.error e
  | Except.ok cx =>
    let d1 := setCol dfint (fishColName i "vx") (recalcVelCol cx.vals)
    match getColE d1 (fishColName i "y") with
    | Except.error e => Except.error e
    | Except.ok cy =>
      let d2 := setCol d1 (fishColName i "vy") (recalcVelCol cy.vals)
      match getColE d2 (fishColName i "theta") with
      | Except.error e => Except.error e
      | Except.ok cth =>
        Except.ok (setCol d2 (fishColName i "vtheta") (recalcVelCol cth.vals))

/-- Insertion of one value into a sorted list (ascending). -/
def insertSorted (x : ℚ) : List ℚ → List ℚ
  | [] => [x]
  | y :: rest => if x ≤ y then x :: y :: rest else y :: insertSorted x rest

/-- Insertion sort. -/
def sortQ : List ℚ → List ℚ
  | [] => []
  | x :: rest => insertSorted x (sortQ rest)

/-- Median of the finite values: lower-middle/average-of-middles convention
(as numpy/pandas compute it); NaN when no finite value is present. -/
def medianQ (l : List ℚ) : OQ :=
  let s := sortQ l
  let n := s.length
  if n = 0 then none
  else if n % 2 = 1 then some (s.getD (n / 2) 0)
  else some ((s.getD (n / 2 - 1) 0 + s.getD (n / 2) 0) / 2)

/-- `Series.rolling(window=w, min_periods=1).median()`: at each position the
median of the finite values among the trailing window (shorter at the left
edge); NaN when the window holds no finite value. -/
def rollingMedian (w : Nat) (vals : List OQ) : List OQ :=
  (List.range vals.length).map (fun k =>
    let lo := k + 1 - w
    medianQ (((vals.drop lo).take (k + 1 - lo)).filterMap id))

/-- Maximal runs of `true` in a mask, as half-open index ranges; `st` is the
start of the currently open run. -/
def maskRunsGo : Nat → Option Nat → List Bool → List (Nat × Nat)
  | _, none, [] => []
  | j, some s, [] => [(s, j)]
  | j, none, b :: rest =>
    if b then maskRunsGo (j + 1) (some j) rest else maskRunsGo (j + 1) none rest
  | j, some s, b :: rest =>
    if b then maskRunsGo (j + 1) (some s) rest
    else (s, j) :: maskRunsGo (j + 1) none rest

/-- Maximal runs of `true` via edge detection. -/
def maskRuns (mask : List Bool) : List (Nat × Nat) :=
  maskRunsGo 0 none mask

/-- Coalesce padded ranges that strictly overlap (ranges that merely touch
stay separate and are flagged contiguous). -/
def coalesceGo : (Nat × Nat) → List (Nat × Nat) → List (Nat × Nat)
  | cur, [] => [cur]
  | cur, r :: rest =>
    if r.1 < cur.2 then coalesceGo (cur.1, max cur.2 r.2) rest
    else cur :: coalesceGo r rest

/-- Coalesce a sorted list of ranges. -/
def coalesce : List (Nat × Nat) → List (Nat × Nat)
  | [] => []
  | r :: rest => coalesceGo r rest

/-- Continuity flags after the first range: true iff the previous range's end
equals this range's start (zero-frame gap). -/
def continuityFlagsGo : (Nat × Nat) → List (Nat × Nat) → List Bool
  | _, [] => []
  | prev, r :: rest => decide (r.1 = prev.2) :: continuityFlagsGo r rest

/-- Continuity flags parallel to the ranges; the first range is `false`. -/
def continuityFlags : List (Nat × Nat) → List Bool
  | [] => []
  | r :: rest => false :: continuityFlagsGo r rest

/-- Modelled from the spec: `bouter.utilities.extract_segments_above_threshold`
is imported by `extract_bouts` but its source is not among the provided files.
Following spec §4.2: compute the mask `signal > threshold` (NaN counts as
below threshold), take maximal `true` runs via edge detection, drop runs
shorter than the minimum duration, pad each side clipped to the valid index
range, coalesce overlapping ranges, and flag a range contiguous with its
predecessor iff the gap is zero frames.  The optional frame cap truncates the
processed signal (spec §4.2 step 6, debugging only). -/
def extract_segments_above_threshold (signal : List OQ) (threshold : ℚ)
    (min_duration pad_before pad_after : Nat) (max_frames : Option Nat) :
    List (Nat × Nat) × List Bool :=
  let sig := match max_frames with
    | some m => signal.take m
    | none => signal
  let n := sig.length
  let mask := sig.map (fun v => qgt v threshold)
  let runs := (maskRuns mask).filter (fun r => min_duration ≤ r.2 - r.1)
  let padded := runs.map (fun r => (r.1 - pad_before, min (r.2 + pad_after) n))
  let merged := coalesce padded
  (merged, continuityFlags merged)

/-- The per-fish activity signal of `extract_bouts`:
`(dfint[f{i}_vx]**2 + dfint[f{i}_vy]**2) * ((scale/dt)**2)`, optionally
replaced by its rolling median. -/
def fishActivity (dfint : Table) (i : Nat) (scale : ℚ) (dt : OQ)
    (median_vel : Bool) (window_size : Nat) : Except String (List OQ) :=
  match getColE dfint (fishColName i "vx") with
  | Except.error e => Except.error e
  | Except.ok vx =>
    match getColE dfint (fishColName i "vy") with
    | Except.error e => Except.error e
    | Except.ok vy =>
      let factor := qmul (qdiv (some scale) dt) (qdiv (some scale) dt)
      let vel2 := List.zipWith
        (fun a b => qmul (qadd (qmul a a) (qmul b b)) factor) vx.vals vy.vals
      Except.ok (if median_vel then rollingMedian window_size vel2 else vel2)

/-- `[f a for a in l]` over `Except`: left to right, first exception
propagates. -/
def mapMExc (f : α → Except String β) : List α → Except String (List β)
  | [] => Except.ok []
  | a :: rest =>
    match f a with
    | Except.error e => Except.error e
    | Except.ok b =>
      match mapMExc f rest with
      | Except.error e => Except.error e
      | Except.ok bs => Except.ok (b :: bs)

/-- The per-fish loop of `extract_bouts` over the remaining fish indices,
threading the interpolated table (which `recalculate_vel` mutates in place).
Bouts are sliced from `df` — the raw `behavior_log`, not the interpolated
copy — exactly as `_extract_bout` does. -/
def goFish (df : Table) (scale : ℚ) (dt : OQ) (n_segments : Nat)
    (recalculate_vel median_vel : Bool) (window_size : Nat) (thr2 : ℚ)
    (min_duration pad_before pad_after : Nat) (max_frames : Option Nat) :
    List Nat → Table → Except String (List (List Table) × List (List Bool))
  | [], _ => Except.ok ([], [])
  | i :: rest, dfint =>
    match (if recalculate_vel then recalcFish dfint i else Except.ok dfint) with
    | Except.error e => Except.error e
    | Except.ok dfint2 =>
      match fishActivity dfint2 i scale dt median_vel window_size with
      | Except.error e => Except.error e
      | Except.ok sig =>
        let lc := extract_segments_above_threshold sig thr2 min_duration
          pad_before pad_after max_frames
        match mapMExc
            (fun se => extract_bout df se.1 se.2 n_segments i scale none) lc.1 with
        | Except.error e => Except.error e
        | Except.ok bs =>
          match goFish df scale dt n_segments recalculate_vel median_vel
              window_size thr2 min_duration pad_before pad_after max_frames
              rest dfint2 with
          | Except.error e => Except.error e
          | Except.ok bc => Except.ok (bs :: bc.1, lc.2 :: bc.2)

/-- The experiment object: the tracking table plus the metadata and the
calibration value supplied by external collaborators
(`self["tracking+fish_tracking"]` and `get_scale_mm`). -/
structure FreelySwimmingExperiment where
  behavior_log : Table
  n_fish_max : Nat
  n_segments : Nat
  scale_mm : ℚ
  deriving DecidableEq, Repr

/-- Keyword arguments of `extract_bouts`; `min_duration`, `pad_before`,
`pad_after` and `max_frames` are the `**kwargs` passed through to the segment
extractor (their defaults live in the extractor, so the model makes them
explicit). -/
structure ExtractConfig where
  max_interpolate : Nat := 2
  window_size : Nat := 7
  recalculate_vel : Bool := false
  median_vel : Bool := false
  scale : Option ℚ := none
  threshold : ℚ := 1
  min_duration : Nat := 0
  pad_before : Nat := 0
  pad_after : Nat := 0
  max_frames : Option Nat := none
  deriving DecidableEq, Repr

/-- `scale = scale or get_scale_mm(self)`: Python's `or` also replaces an
explicit `0.0` (falsy) by the calibration lookup. -/
def effectiveScale (exp : FreelySwimmingExperiment) (cfg : ExtractConfig) : ℚ :=
  match cfg.scale with
  | none => exp.scale_mm
  | some s => if s = 0 then exp.scale_mm else s

/-- `FreelySwimmingExperiment.extract_bouts`.  Returns the per-fish bout
tables and continuity arrays, plus the `behavior_log` as the call leaves it
(the log is never reassigned, and every mutated frame — the interpolated
copy, the filtered/renamed bout — is a fresh pandas object, so the returned
log is the input one). -/
def extract_bouts (exp : FreelySwimmingExperiment) (cfg : ExtractConfig) :
    Except String (List (List Table) × List (List Bool) × Table) :=
  let df := exp.behavior_log
  let scale := effectiveScale exp cfg
  match getColE df "t" with
  | Except.error e => Except.error e
  | Except.ok tc =>
    let dt := globalDt tc.vals
    let dfint := interpolateTable cfg.max_interpolate df
    match goFish df scale dt (exp.n_segments - 1) cfg.recalculate_vel
        cfg.median_vel cfg.window_size (cfg.threshold * cfg.threshold)
        cfg.min_duration cfg.pad_before cfg.pad_after cfg.max_frames
        (List.range exp.n_fish_max) dfint with
    | Except.error e => Except.error e
    | Except.ok bc => Except.ok (bc.1, bc.2, df)

/-- Sequential concatenation of the per-fish lists (the nested
`for i_fish ... for i_bout ...` loop order). -/
def concatAll : List (List α) → List α
  | [] => []
  | l :: rest => l ++ concatAll rest

/-- First and last entry of a named bout column
(`bout.<nm>.iloc[0]` / `bout.<nm>.iloc[-1]`), raising as Python would. -/
def colFirstLast (b : Table) (nm : String) : Except String (OQ × OQ) :=
  match getCol b nm with
  | none => Except.error ("AttributeError: " ++ nm)
  | some c =>
    match c.vals.head?, c.vals.getLast? with
    | some v0, some v1 => Except.ok (v0, v1)
    | _, _ => Except.error "IndexError: single positional indexer is out-of-bounds"

/-- One row of the summary array: start block `(t, x, y, theta)` from the
first frame, end block from the last frame. -/
def summaryRow (b : Table) : Except String (List OQ) :=
  match colFirstLast b "t" with
  | Except.error e => Except.error e
  | Except.ok t =>
    match colFirstLast b "x" with
    | Except.error e => Except.error e
    | Except.ok x =>
      match colFirstLast b "y" with
      | Except.error e => Except.error e
      | Except.ok y =>
        match colFirstLast b "theta" with
        | Except.error e => Except.error e
        | Except.ok th =>
          Except.ok [t.1, x.1, y.1, th.1, t.2, x.2, y.2, th.2]

/-- The eight header columns of the summary table, rebuilt column-major from
the row-major array. -/
def summaryBase (rows : List (List OQ)) : Table :=
  [⟨"t_start", rows.map (fun r => r.getD 0 none)⟩,
   ⟨"x_start", rows.map (fun r => r.getD 1 none)⟩,
   ⟨"y_start", rows.map (fun r => r.getD 2 none)⟩,
   ⟨"theta_start", rows.map (fun r => r.getD 3 none)⟩,
   ⟨"t_end", rows.map (fun r => r.getD 4 none)⟩,
   ⟨"x_end", rows.map (fun r => r.getD 5 none)⟩,
   ⟨"y_end", rows.map (fun r => r.getD 6 none)⟩,
   ⟨"theta_end", rows.map (fun r => r.getD 7 none)⟩]

/-- `np.concatenate([np.full(len(bouts[i]), i, dtype=np.uint8) ...])`: the
origin-fish index per summary row (`np.uint8` wraps at 256). -/
def originFishGo : Nat → List (List Table) → List OQ
  | _, [] => []
  | i, l :: rest =>
    List.replicate l.length (some ((i % 256 : Nat) : ℚ)) ++ originFishGo (i + 1) rest

/-- All origin-fish indices, fish-major. -/
def originFish (bouts : List (List Table)) : List OQ :=
  originFishGo 0 bouts

/-- `FreelySwimmingExperiment.summarize_bouts`.  One row per bout, fish-major
then bout order.  For no fish at all, `np.sum([])` is the float `0.0` and
`np.empty((0.0, 8))` raises `TypeError`.  A supplied `continuity` list is
Python-truthy only when non-empty; its concatenation must match the row count
(pandas rejects a mismatched column assignment).  The boolean
`follows_previous` column is encoded numerically (false ↦ 0, true ↦ 1); the
`i_fish` column is inserted at position 0 iff more than one fish list was
passed. -/
def summarize_bouts (bouts : List (List Table))
    (continuity : Option (List (List Bool))) : Except String Table :=
  if bouts.isEmpty then
    Except.error "TypeError: np.empty dimension from np.sum([]) is a float"
  else
    match mapMExc summaryRow (concatAll bouts) with
    | Except.error e => Except.error e
    | Except.ok rows =>
      let base := summaryBase rows
      let withCont : Except String Table :=
        match continuity with
        | none => Except.ok base
        | some cont =>
          if cont.isEmpty then Except.ok base
          else if (concatAll cont).length = rows.length then
            Except.ok (base ++
              [⟨"follows_previous",
                (concatAll cont).map (fun b => some (if b then (1 : ℚ) else 0))⟩])
          else Except.error "ValueError: length of values does not match index"
      match withCont with
      | Except.error e => Except.error e
      | Except.ok cols =>
        Except.ok (if 1 < bouts.length then ⟨"i_fish", originFish bouts⟩ :: cols else cols)

deriving instance DecidableEq for Except

/-- Bout `j` of fish `i` in an `extract_bouts` result, if any. -/
def boutAt (r : Except String (List (List Table) × List (List Bool) × Table))
    (i j : Nat) : Option Table :=
  match r with
  | Except.ok bc => (bc.1.get? i).bind (fun l => l.get? j)
  | Except.error _ => none

/-- Comparator for the refinement claim about bout provenance, built on the
spec's words rather than the source: the bout as a slice of the
NaN-interpolated table (the source instead slices the raw `behavior_log`). -/
def specInterpolatedBout (limit : Nat) (df : Table) (s e n_segments i_fish : Nat)
    (scale : ℚ) : Except String Table :=
  extract_bout (interpolateTable limit df) s e n_segments i_fish scale none

/-! ## Concrete inputs and outputs used by the counterexamples and witnesses -/

/-- A one-frame, one-fish log with one tail segment and distinct values in
every channel. -/
def df1 : Table :=
  [⟨"t", [some 0]⟩, ⟨"f0_x", [some 10]⟩, ⟨"f0_vx", [some 20]⟩,
   ⟨"f0_y", [some 30]⟩, ⟨"f0_vy", [some 40]⟩, ⟨"f0_theta", [some 5]⟩,
   ⟨"f0_vtheta", [some 6]⟩, ⟨"f0_theta_00", [some 7]⟩]

/-- `extract_bout df1 0 1 1 0 3 (some 2)`: positions tripled (scale 3),
velocities tripled then halved (dt 2), `vtheta` halved, `t`, `theta` and the
tail angle untouched. -/
def outC1 : Table :=
  [⟨"t", [some 0]⟩, ⟨"x", [some 30]⟩, ⟨"vx", [some 30]⟩,
   ⟨"y", [some 90]⟩, ⟨"vy", [some 60]⟩, ⟨"theta", [some 5]⟩,
   ⟨"vtheta", [some 3]⟩, ⟨"theta_00", [some 7]⟩]

/-- The spec's §8 scenario: `t = [0, 0.1, 0.2]`, `x_px = [10, 12, 14]`,
pixel-frame velocity 2 per frame, no tail segments. -/
def df3 : Table :=
  [⟨"t", [some 0, some (1/10), some (2/10)]⟩,
   ⟨"f0_x", [some 10, some 12, some 14]⟩,
   ⟨"f0_vx", [some 2, some 2, some 2]⟩,
   ⟨"f0_y", [some 0, some 0, some 0]⟩,
   ⟨"f0_vy", [some 0, some 0, some 0]⟩,
   ⟨"f0_theta", [some 0, some 0, some 0]⟩,
   ⟨"f0_vtheta", [some 0, some 0, some 0]⟩]

/-- What `_extract_bout` actually produces on `df3` with scale `1/2` and no
explicit dt: the estimated dt is `(0.2 - 0) / 3 = 1/15`, so `vx` is scaled by
`(1/2) / (1/15) = 15/2` — `2 ↦ 15`, not the spec's `2 ↦ 10`. -/
def boutC3 : Table :=
  [⟨"t", [some 0, some (1/10), some (1/5)]⟩,
   ⟨"x", [some 5, some 6, some 7]⟩,
   ⟨"vx", [some 15, some 15, some 15]⟩,
   ⟨"y", [some 0, some 0, some 0]⟩,
   ⟨"vy", [some 0, some 0, some 0]⟩,
   ⟨"theta", [some 0, some 0, some 0]⟩,
   ⟨"vtheta", [some 0, some 0, some 0]⟩]

/-- A 102-frame single-fish log (102 frames make the global dt finite:
`t[100:200]` holds two samples).  `f0_x` has a NaN at frame 12, inside the
bout that frames 10..14 produce (`f0_vx = 10` there), so the raw and the
interpolated table differ inside the bout. -/
def exC2log : Table :=
  [⟨"t", (List.range 102).map (fun i => some (i : ℚ))⟩,
   ⟨"f0_x", (List.range 102).map (fun i => if i = 12 then none else some (i : ℚ))⟩,
   ⟨"f0_vx", (List.range 102).map (fun i => if 10 ≤ i ∧ i < 15 then some 10 else some 0)⟩,
   ⟨"f0_y", List.replicate 102 (some 0)⟩,
   ⟨"f0_vy", List.replicate 102 (some 0)⟩,
   ⟨"f0_theta", List.replicate 102 (some 0)⟩,
   ⟨"f0_vtheta", List.replicate 102 (some 0)⟩]

/-- Experiment around `exC2log`: one fish, one metadata segment (no tail
columns), calibration 1 mm/px. -/
def exC2 : FreelySwimmingExperiment := ⟨exC2log, 1, 1, 1⟩

/-- `extract_bouts` keyword arguments used on the concrete logs: explicit
scale 1, everything else at its default. -/
def cfgC2 : ExtractConfig := { scale := some 1 }

/-- The bout `extract_bouts` produces on `exC2`: rows 10..14 of the raw log
(the NaN at frame 12 survives in `x`), per-bout dt `(14 - 10) / 5 = 4/5`, so
`vx = 10 / (4/5) = 25/2`. -/
def boutC2 : Table :=
  [⟨"t", [some 10, some 11, some 12, some 13, some 14]⟩,
   ⟨"x", [some 10, some 11, none, some 13, some 14]⟩,
   ⟨"vx", [some (25/2), some (25/2), some (25/2), some (25/2), some (25/2)]⟩,
   ⟨"y", [some 0, some 0, some 0, some 0, some 0]⟩,
   ⟨"vy", [some 0, some 0, some 0, some 0, some 0]⟩,
   ⟨"theta", [some 0, some 0, some 0, some 0, some 0]⟩,
   ⟨"vtheta", [some 0, some 0, some 0, some 0, some 0]⟩]

/-- The full `extract_bouts` result on `exC2`/`cfgC2`. -/
def resC2 : List (List Table) × List (List Bool) × Table :=
  ([[boutC2]], [[false]], exC2.behavior_log)

/-- Like `exC2log`, but the fish has two metadata segments, a constant tail
angle `f0_theta_00 = 7` — and no `f0_theta` column at all. -/
def exC5log : Table :=
  [⟨"t", (List.range 102).map (fun i => some (i : ℚ))⟩,
   ⟨"f0_x", (List.range 102).map (fun i => some (i : ℚ))⟩,
   ⟨"f0_vx", (List.range 102).map (fun i => if 10 ≤ i ∧ i < 15 then some 10 else some 0)⟩,
   ⟨"f0_y", List.replicate 102 (some 0)⟩,
   ⟨"f0_vy", List.replicate 102 (some 0)⟩,
   ⟨"f0_vtheta", List.replicate 102 (some 0)⟩,
   ⟨"f0_theta_00", List.replicate 102 (some 7)⟩]

/-- Experiment around `exC5log` (`n_segments = 2`, so one tail column is
expected). -/
def exC5 : FreelySwimmingExperiment := ⟨exC5log, 1, 2, 1⟩

/-- A minimal three-frame well-formed log: too short for a finite global dt,
so no bouts can be detected. -/
def exp3 : FreelySwimmingExperiment :=
  ⟨[⟨"t", [some 0, some (1/10), some (2/10)]⟩,
    ⟨"f0_vx", [some 9, some 9, some 9]⟩,
    ⟨"f0_vy", [some 9, some 9, some 9]⟩], 1, 1, 1⟩

/-- All-defaults keyword arguments. -/
def cfg0 : ExtractConfig := {}

/-- The `extract_bouts` result on `exp3`: one fish, no bouts. -/
def resExp3 : List (List Table) × List (List Bool) × Table :=
  ([[]], [[]], exp3.behavior_log)

/-- A log holding only `t`: the velocity columns `extract_bouts` reads are
absent. -/
def exM : FreelySwimmingExperiment :=
  ⟨[⟨"t", [some 0, some 1]⟩], 1, 1, 1⟩

/-- A two-frame canonical bout table. -/
def boutA : Table :=
  [⟨"t", [some 0, some 1]⟩, ⟨"x", [some 1, some 2]⟩,
   ⟨"y", [some 3, some 4]⟩, ⟨"theta", [some 5, some 6]⟩]

/-- A one-frame canonical bout table. -/
def boutB : Table :=
  [⟨"t", [some 2]⟩, ⟨"x", [some 7]⟩, ⟨"y", [some 8]⟩, ⟨"theta", [some 9]⟩]

/-- Another one-frame canonical bout table. -/
def boutC : Table :=
  [⟨"t", [some 3]⟩, ⟨"x", [some 10]⟩, ⟨"y", [some 11]⟩, ⟨"theta", [some 12]⟩]

/-- A bout table with an odd shape (NaN included) for the round-trip witness. -/
def boutW8 : Table :=
  [⟨"t", [some 1, none]⟩, ⟨"x", [some 2, some 3]⟩, ⟨"vx", [some 4, none]⟩,
   ⟨"y", [some 5, some 6]⟩, ⟨"vy", [some 7, some 8]⟩, ⟨"theta", [some 9, some 10]⟩,
   ⟨"vtheta", [none, some 11]⟩, ⟨"theta_00", [some 12, some 13]⟩]

/-! ## Lemmas -/

/-- A map by a pointwise-identity function is the identity. -/
theorem map_id_of_eq {α : Type} {f : α → α} (hf : ∀ a, f a = a) :
    ∀ l : List α, l.map f = l := by
  intro l
  induction l with
  | nil => rfl
  | cons a r ih => simp [hf, ih]

/-- `scaleColsFrom` acts pointwise at the shifted position. -/
theorem scaleColsFrom_get (sc : ℚ) (d : OQ) :
    ∀ (l : Table) (j k : Nat),
      (scaleColsFrom j sc d l)[k]? = (l[k]?).map (fun c => scaleCol (j + k) sc d c) := by
  intro l
  induction l with
  | nil => intro j k; simp [scaleColsFrom]
  | cons c rest ih =>
    intro j k
    cases k with
    | zero => simp [scaleColsFrom]
    | succ k2 =>
      have hjk : j + 1 + k2 = j + (k2 + 1) := by omega
      simp only [scaleColsFrom, List.getElem?_cons_succ]
      rw [ih (j + 1) k2, hjk]

/-- Claim C1 fails on the code: `vtheta` sits at position 6, inside the
`iloc[:, 2:7:2] /= dt` slice, so it is divided by the time step. -/
theorem C1_counterexample :
    (extract_bout df1 0 1 1 0 1 (some 2)).toOption.bind (fun b => colVals b "vtheta")
        ≠ colVals df1 "f0_vtheta" ∧
      (extract_bout df1 0 1 1 0 1 (some 2)).toOption.bind (fun b => colVals b "vtheta")
        = some [some 3] ∧
      colVals df1 "f0_vtheta" = some [some 6] := by
  decide

/-- Claim C1 (amended): in `_extract_bout`'s unit conversion the position
columns `x, y` (positions 1, 3) are multiplied by the scale and nothing else;
the velocities `vx, vy` (positions 2, 4) are multiplied by the scale and then
divided by the time step; `vtheta` (position 6) is divided by the time step;
and `t` (position 0), `theta` (position 5) and the tail-angle columns
(positions 7 and beyond) are returned unchanged. -/
theorem C1_amended (df : Table) (s e nseg ifish : Nat) (sc d : ℚ) (out : Table)
    (h : extract_bout df s e nseg ifish sc (some d) = Except.ok out) :
    (∀ k, k = 0 ∨ k = 5 ∨ 7 ≤ k →
        out[k]? = (rename_fish (sliceRows df s e) ifish nseg)[k]?) ∧
      (∀ k, k = 1 ∨ k = 3 →
        out[k]? = ((rename_fish (sliceRows df s e) ifish nseg)[k]?).map
          (fun c => ⟨c.name, c.vals.map (fun v => qmul v (some sc))⟩)) ∧
      (∀ k, k = 2 ∨ k = 4 →
        out[k]? = ((rename_fish (sliceRows df s e) ifish nseg)[k]?).map
          (fun c => ⟨c.name, c.vals.map (fun v => qdiv (qmul v (some sc)) (some d))⟩)) ∧
      out[6]? = ((rename_fish (sliceRows df s e) ifish nseg)[6]?).map
        (fun c => ⟨c.name, c.vals.map (fun v => qdiv v (some d))⟩) := by
  have hout : out = scaleCols (rename_fish (sliceRows df s e) ifish nseg) sc (some d) := by
    have h2 := h.symm
    simp only [extract_bout, Except.ok.injEq] at h2
    exact h2
  subst hout
  refine ⟨?_, ?_, ?_, ?_⟩
  · intro k hk
    rw [scaleCols, scaleColsFrom_get]
    have h1 : ¬(1 ≤ k ∧ k < 5) := by omega
    have h2 : ¬(k = 2 ∨ k = 4 ∨ k = 6) := by omega
    cases hbk : (rename_fish (sliceRows df s e) ifish nseg)[k]? with
    | none => simp
    | some c => simp [scaleCol, h1, h2]
  · intro k hk
    rw [scaleCols, scaleColsFrom_get]
    have h1 : 1 ≤ k ∧ k < 5 := by omega
    have h2 : ¬(k = 2 ∨ k = 4 ∨ k = 6) := by omega
    cases hbk : (rename_fish (sliceRows df s e) ifish nseg)[k]? with
    | none => simp
    | some c => simp [scaleCol, h1, h2]
  · intro k hk
    rw [scaleCols, scaleColsFrom_get]
    have h1 : 1 ≤ k ∧ k < 5 := by omega
    have h2 : k = 2 ∨ k = 4 ∨ k = 6 := by omega
    cases hbk : (rename_fish (sliceRows df s e) ifish nseg)[k]? with
    | none => simp
    | some c => simp [scaleCol, h1, h2, List.map_map, Function.comp]
  · rw [scaleCols, scaleColsFrom_get]
    cases hbk : (rename_fish (sliceRows df s e) ifish nseg)[6]? with
    | none => simp
    | some c =>
      have h1 : ¬(1 ≤ (6 : Nat) ∧ (6 : Nat) < 5) := by omega
      simp [scaleCol, h1]

/-- Witness for `C1_amended` at the one-frame log `df1` with scale 3 and
dt 2: the `x` column is genuinely tripled, `vx` tripled and halved, `vtheta`
halved. -/
theorem C1_amended_witness :
    extract_bout df1 0 1 1 0 3 (some 2) = Except.ok outC1 ∧
      outC1[1]? = ((rename_fish (sliceRows df1 0 1) 0 1)[1]?).map
        (fun c => ⟨c.name, c.vals.map (fun v => qmul v (some 3))⟩) ∧
      outC1[2]? = ((rename_fish (sliceRows df1 0 1) 0 1)[2]?).map
        (fun c => ⟨c.name, c.vals.map (fun v => qdiv (qmul v (some 3)) (some 2))⟩) ∧
      outC1[6]? = ((rename_fish (sliceRows df1 0 1) 0 1)[6]?).map
        (fun c => ⟨c.name, c.vals.map (fun v => qdiv v (some 2))⟩) :=
  ⟨by decide,
   (C1_amended df1 0 1 1 0 3 2 outC1 (by decide)).2.1 1 (Or.inl rfl),
   (C1_amended df1 0 1 1 0 3 2 outC1 (by decide)).2.2.1 2 (Or.inl rfl),
   (C1_amended df1 0 1 1 0 3 2 outC1 (by decide)).2.2.2⟩

/-- Claim C3 fails on the code: with `t = [0, 0.1, 0.2]` the estimated dt is
`(0.2 - 0) / 3 = 1/15`, not `0.1`, so `vx` is multiplied by
`0.5 / (1/15) = 7.5` — the pixel velocity 2 becomes 15, not 10. -/
theorem C3_counterexample :
    (extract_bout df3 0 3 0 0 (1/2) none).toOption.bind (fun b => colVals b "vx")
        = some [some 15, some 15, some 15] ∧
      (extract_bout df3 0 3 0 0 (1/2) none).toOption.bind (fun b => colVals b "vx")
        ≠ some [some 10, some 10, some 10] := by
  decide

/-- Claim C3 (amended): on the spec's scenario the code estimates
`dt = (t_last - t_first) / row_count = 0.2 / 3 = 1/15` (the divisor is the
row count, not the interval count), giving `x` in mm `[5, 6, 7]` and `vx`
equal to 7.5 times the pixel-frame velocity. -/
theorem C3_amended : extract_bout df3 0 3 0 0 (1/2) none = Except.ok boutC3 := by
  decide

/-- Claim C6: the recomputed velocity channel is the forward difference
(next frame's value minus the current one), zero at the last frame. -/
theorem C6_recalculated_velocity (xs : List OQ) (i : Nat) (h : i < xs.length) :
    (recalcVelCol xs)[i]? =
      some (if i + 1 < xs.length then qsub (xs.getD (i + 1) none) (xs.getD i none)
            else some 0) := by
  induction xs generalizing i with
  | nil => simp at h
  | cons a rest ih =>
    cases rest with
    | nil =>
      have hi : i = 0 := by
        simp at h
        omega
      subst hi
      simp [recalcVelCol, diffO]
    | cons b rest2 =>
      cases i with
      | zero => simp [recalcVelCol, diffO]
      | succ i2 =>
        have h2 : i2 < (b :: rest2).length := by
          simp at h ⊢
          omega
        have step : recalcVelCol (a :: b :: rest2) = qsub b a :: recalcVelCol (b :: rest2) := by
          simp [recalcVelCol, diffO]
        rw [step]
        simp only [List.getElem?_cons_succ]
        rw [ih i2 h2]
        by_cases hlt : i2 + 1 < (b :: rest2).length
        · have hlt2 : i2 + 1 + 1 < (a :: b :: rest2).length := by
            simp at hlt ⊢
            omega
          simp [hlt, hlt2]
        · have hlt2 : ¬(i2 + 1 + 1 < (a :: b :: rest2).length) := by
            simp at hlt ⊢
            omega
          simp [hlt, hlt2]

/-- Witness for `C6_recalculated_velocity` on a two-frame channel. -/
theorem C6_recalculated_velocity_witness :
    (0 < [some (1 : ℚ), some 4].length) ∧
      (recalcVelCol [some (1 : ℚ), some 4])[0]? =
        some (if 0 + 1 < [some (1 : ℚ), some 4].length then
                qsub ([some (1 : ℚ), some 4].getD (0 + 1) none)
                  ([some (1 : ℚ), some 4].getD 0 none)
              else some 0) :=
  ⟨by decide, C6_recalculated_velocity [some 1, some 4] 0 (by decide)⟩

/-- Scaling by `s` then by `1/s` is the identity on values. -/
theorem qmul_inv_cancel (s : ℚ) (hs : s ≠ 0) (v : OQ) :
    qmul (qmul v (some s)) (some (1/s)) = v := by
  cases v with
  | none => simp [qmul]
  | some a =>
    simp only [qmul, Option.some.injEq]
    field_simp

/-- Dividing by `d` then by `1/d` is the identity on values. -/
theorem qdiv_inv_cancel (d : ℚ) (hd : d ≠ 0) (v : OQ) :
    qdiv (qdiv v (some d)) (some (1/d)) = v := by
  cases v with
  | none => simp [qdiv]
  | some a =>
    have hinv : (1 : ℚ)/d ≠ 0 := one_div_ne_zero hd
    simp only [qdiv, if_neg hd, if_neg hinv, Option.some.injEq]
    field_simp

/-- The combined scale-and-divide pass inverts under `1/s` and `1/d`. -/
theorem qmuldiv_inv_cancel (s d : ℚ) (hs : s ≠ 0) (hd : d ≠ 0) (v : OQ) :
    qdiv (qmul (qdiv (qmul v (some s)) (some d)) (some (1/s))) (some (1/d)) = v := by
  cases v with
  | none => simp [qmul, qdiv]
  | some a =>
    have hinv : (1 : ℚ)/d ≠ 0 := one_div_ne_zero hd
    simp only [qmul, qdiv, if_neg hd, if_neg hinv, Option.some.injEq]
    field_simp
    ring

/-- Per-column round trip of the positional unit scaling. -/
theorem scaleCol_roundtrip (k : Nat) (s d : ℚ) (hs : s ≠ 0) (hd : d ≠ 0) (c : Column) :
    scaleCol k (1/s) (some (1/d)) (scaleCol k s (some d) c) = c := by
  cases c with
  | mk nm vs =>
    by_cases h1 : 1 ≤ k ∧ k < 5 <;> by_cases h2 : k = 2 ∨ k = 4 ∨ k = 6 <;>
      simp only [scaleCol, h1, h2, if_true, if_false, List.map_map, Column.mk.injEq, true_and]
    · exact map_id_of_eq (fun v => qmuldiv_inv_cancel s d hs hd v) vs
    · exact map_id_of_eq (fun v => qmul_inv_cancel s hs v) vs
    · exact map_id_of_eq (fun v => qdiv_inv_cancel d hd v) vs

/-- Table-level round trip from any starting position. -/
theorem scaleColsFrom_roundtrip (s d : ℚ) (hs : s ≠ 0) (hd : d ≠ 0) :
    ∀ (l : Table) (j : Nat),
      scaleColsFrom j (1/s) (some (1/d)) (scaleColsFrom j s (some d) l) = l := by
  intro l
  induction l with
  | nil => intro j; rfl
  | cons c rest ih =>
    intro j
    simp only [scaleColsFrom, List.cons.injEq]
    exact ⟨scaleCol_roundtrip j s d hs hd c, ih (j + 1)⟩

/-- Claim C8: unit conversion with scale `s` and explicit time step `d`,
followed by conversion with scale `1/s` and time step `1/d`, reproduces every
column of the bout exactly (over exact rational arithmetic; NaNs stay NaNs). -/
theorem C8_unit_conversion_roundtrip (bout : Table) (s d : ℚ)
    (hs : s ≠ 0) (hd : d ≠ 0) :
    scaleCols (scaleCols bout s (some d)) (1/s) (some (1/d)) = bout :=
  scaleColsFrom_roundtrip s d hs hd bout 0

/-- Witness for `C8_unit_conversion_roundtrip` with scale 2 and dt 3. -/
theorem C8_unit_conversion_roundtrip_witness :
    ((2 : ℚ) ≠ 0) ∧ ((3 : ℚ) ≠ 0) ∧
      scaleCols (scaleCols boutW8 2 (some 3)) (1/2) (some (1/3)) = boutW8 :=
  ⟨by norm_num, by norm_num, C8_unit_conversion_roundtrip boutW8 2 3 (by norm_num) (by norm_num)⟩

/-- Every output of a successful `mapMExc` comes from some input element. -/
theorem mapMExc_ok_mem {α β : Type} {f : α → Except String β} :
    ∀ {l : List α} {out : List β}, mapMExc f l = Except.ok out →
      ∀ b ∈ out, ∃ a ∈ l, f a = Except.ok b := by
  intro l
  induction l with
  | nil =>
    intro out h b hb
    simp only [mapMExc, Except.ok.injEq] at h
    subst h
    simp at hb
  | cons a rest ih =>
    intro out h b hb
    simp only [mapMExc] at h
    cases hfa : f a with
    | error e =>
      rw [hfa] at h
      exact absurd h (by simp)
    | ok b0 =>
      rw [hfa] at h
      cases hrest : mapMExc f rest with
      | error e =>
        rw [hrest] at h
        exact absurd h (by simp)
      | ok bs =>
        rw [hrest] at h
        simp only [Except.ok.injEq] at h
        subst h
        rcases List.mem_cons.mp hb with hb0 | hbs
        · exact ⟨a, List.mem_cons_self a rest, hb0 ▸ hfa⟩
        · obtain ⟨a2, ha2, hfa2⟩ := ih hrest b hbs
          exact ⟨a2, List.mem_cons_of_mem a ha2, hfa2⟩

/-- Every bout a successful `goFish` returns was produced by `extract_bout`
on `df` — the raw behavior log it was given. -/
theorem goFish_bouts (df : Table) (sc : ℚ) (dt : OQ) (nseg : Nat)
    (rc md : Bool) (w : Nat) (t2 : ℚ) (mdur pb pa : Nat) (mf : Option Nat) :
    ∀ (l : List Nat) (dfint : Table) (B : List (List Table)) (C : List (List Bool)),
      goFish df sc dt nseg rc md w t2 mdur pb pa mf l dfint = Except.ok (B, C) →
      ∀ fb ∈ B, ∀ b ∈ fb, ∃ i s e,
        extract_bout df s e nseg i sc none = Except.ok b := by
  intro l
  induction l with
  | nil =>
    intro dfint B C h fb hfb
    simp only [goFish, Except.ok.injEq, Prod.mk.injEq] at h
    rw [← h.1] at hfb
    simp at hfb
  | cons i rest ih =>
    intro dfint B C h fb hfb b hb
    simp only [goFish] at h
    split at h
    · simp at h
    · rename_i dfint2 hrf
      split at h
      · simp at h
      · rename_i sig hact
        split at h
        · simp at h
        · rename_i bs hmap
          split at h
          · simp at h
          · rename_i bc hrec
            simp only [Except.ok.injEq, Prod.mk.injEq] at h
            rw [← h.1] at hfb
            rcases List.mem_cons.mp hfb with hfb0 | hfbs
            · obtain ⟨se, _, hse⟩ := mapMExc_ok_mem hmap b (hfb0 ▸ hb)
              exact ⟨i, se.1, se.2, hse⟩
            · exact ih dfint2 bc.1 bc.2 (by rw [hrec]) fb hfbs b hb

/-- Claim C2 fails on the code: on `exC2` the produced bout equals the
slice-rename-convert of the *raw* `behavior_log` (the NaN at frame 12
survives in `x`), and differs from the same construction over the
NaN-interpolated table, which has the gap filled. -/
theorem C2_counterexample :
    boutAt (extract_bouts exC2 cfgC2) 0 0
        = (extract_bout exC2.behavior_log 10 15 0 0 1 none).toOption ∧
      boutAt (extract_bouts exC2 cfgC2) 0 0
        ≠ (specInterpolatedBout 2 exC2.behavior_log 10 15 0 0 1).toOption := by
  decide

/-- Claim C2 (amended): every bout `extract_bouts` returns is produced by
`_extract_bout` on the raw `behavior_log` — sliced, renamed and
unit-converted, but *not* interpolated and *not* carrying recomputed
velocities; the interpolated table (with its optional recomputed velocity
columns) is used only to build the activity signal. -/
theorem C2_amended (exp : FreelySwimmingExperiment) (cfg : ExtractConfig)
    (res : List (List Table) × List (List Bool) × Table)
    (h : extract_bouts exp cfg = Except.ok res) :
    ∀ fb ∈ res.1, ∀ b ∈ fb, ∃ i s e,
      extract_bout exp.behavior_log s e (exp.n_segments - 1) i (effectiveScale exp cfg) none
        = Except.ok b := by
  simp only [extract_bouts] at h
  split at h
  · simp at h
  · rename_i tc htc
    split at h
    · simp at h
    · rename_i bc hgf
      simp only [Except.ok.injEq] at h
      intro fb hfb b hb
      have hfb2 : fb ∈ bc.1 := by
        rw [← h] at hfb
        exact hfb
      exact goFish_bouts exp.behavior_log (effectiveScale exp cfg) (globalDt tc.vals)
        (exp.n_segments - 1) cfg.recalculate_vel cfg.median_vel cfg.window_size
        (cfg.threshold * cfg.threshold) cfg.min_duration cfg.pad_before cfg.pad_after
        cfg.max_frames (List.range exp.n_fish_max)
        (interpolateTable cfg.max_interpolate exp.behavior_log) bc.1 bc.2
        (by rw [hgf]) fb hfb2 b hb

/-- Witness for `C2_amended` on `exC2`: its single bout comes from
`_extract_bout` over the raw log. -/
theorem C2_amended_witness :
    ∃ i s e, extract_bout exC2.behavior_log s e (exC2.n_segments - 1) i
        (effectiveScale exC2 cfgC2) none = Except.ok boutC2 :=
  C2_amended exC2 cfgC2 resC2 (by decide) [boutC2] (by decide) boutC2 (by decide)

/-- `extract_bouts` reads the threshold only through its square. -/
theorem extract_bouts_threshold_sq (exp : FreelySwimmingExperiment)
    (cfg1 cfg2 : ExtractConfig)
    (h1 : cfg1.max_interpolate = cfg2.max_interpolate)
    (h2 : cfg1.window_size = cfg2.window_size)
    (h3 : cfg1.recalculate_vel = cfg2.recalculate_vel)
    (h4 : cfg1.median_vel = cfg2.median_vel)
    (h5 : cfg1.scale = cfg2.scale)
    (h6 : cfg1.threshold * cfg1.threshold = cfg2.threshold * cfg2.threshold)
    (h7 : cfg1.min_duration = cfg2.min_duration)
    (h8 : cfg1.pad_before = cfg2.pad_before)
    (h9 : cfg1.pad_after = cfg2.pad_after)
    (h10 : cfg1.max_frames = cfg2.max_frames) :
    extract_bouts exp cfg1 = extract_bouts exp cfg2 := by
  simp only [extract_bouts, effectiveScale, h1, h2, h3, h4, h5, h6, h7, h8, h9, h10]

/-- Claim C4 fails on the code: with threshold `-1` (non-positive)
`extract_bouts` raises nothing and extracts exactly the bouts threshold `1`
would give, since only `threshold ** 2 = 1` is used. -/
theorem C4_counterexample :
    extract_bouts exC2 { cfgC2 with threshold := -1 } = Except.ok resC2 := by
  decide

/-- Claim C4 (amended): `extract_bouts` performs no threshold validation;
for every threshold `t ≤ 0` it proceeds normally and behaves exactly as with
the non-negative threshold `-t`, because only `threshold ** 2` reaches the
segment extractor. -/
theorem C4_amended (exp : FreelySwimmingExperiment) (cfg : ExtractConfig)
    (t : ℚ) (h : t ≤ 0) :
    extract_bouts exp { cfg with threshold := t }
      = extract_bouts exp { cfg with threshold := -t } :=
  extract_bouts_threshold_sq exp _ _ rfl rfl rfl rfl rfl (neg_mul_neg t t).symm
    rfl rfl rfl rfl

/-- Witness for `C4_amended` at threshold `-1` on the minimal log. -/
theorem C4_amended_witness :
    ((-1 : ℚ) ≤ 0) ∧
      extract_bouts exp3 { cfg0 with threshold := (-1 : ℚ) }
        = extract_bouts exp3 { cfg0 with threshold := -(-1 : ℚ) } :=
  ⟨by norm_num, C4_amended exp3 cfg0 (-1) (by norm_num)⟩

/-- Claim C10: whatever `extract_bouts` returns, the behavior log it leaves
behind is the one it was given — interpolation, velocity recomputation and
bout scaling all happen on fresh pandas objects. -/
theorem C10_behavior_log_unchanged (exp : FreelySwimmingExperiment)
    (cfg : ExtractConfig) (res : List (List Table) × List (List Bool) × Table)
    (h : extract_bouts exp cfg = Except.ok res) :
    res.2.2 = exp.behavior_log := by
  simp only [extract_bouts] at h
  split at h
  · simp at h
  · rename_i tc htc
    split at h
    · simp at h
    · rename_i bc hgf
      simp only [Except.ok.injEq] at h
      rw [← h]

/-- Witness for `C10_behavior_log_unchanged` on the minimal log. -/
theorem C10_behavior_log_unchanged_witness :
    resExp3.2.2 = exp3.behavior_log :=
  C10_behavior_log_unchanged exp3 cfg0 resExp3 (by decide)

/-- Interpolation changes values only: names and presence are preserved. -/
theorem getCol_interpolateTable (k : Nat) (df : Table) (nm : String) :
    getCol (interpolateTable k df) nm
      = (getCol df nm).map (fun c => ⟨c.name, interpVals k c.vals⟩) := by
  induction df with
  | nil => rfl
  | cons c rest ih =>
    simp only [interpolateTable, List.map_cons] at ih ⊢
    by_cases hnm : c.name = nm
    · simp [getCol, hnm]
    · simp only [getCol, hnm, if_false]
      exact ih

/-- Claim C5 fails on the code: `exC5log` has no `f0_theta` column, yet
extraction succeeds silently; `_rename_fish` drops the missing column, the
bout simply lacks `theta`, and the positional `iloc[:, 2:7:2] /= dt` scaling
shifts onto the tail angle: `theta_00` (constant 7 in the input) comes out as
`7 / (4/5) = 35/4`, while `vtheta` — now at position 5 — escapes its
division. -/
theorem C5_counterexample :
    (boutAt (extract_bouts exC5 cfgC2) 0 0).map (fun b => b.map Column.name)
        = some ["t", "x", "vx", "y", "vy", "vtheta", "theta_00"] ∧
      (boutAt (extract_bouts exC5 cfgC2) 0 0).bind (fun b => colVals b "theta_00")
        = some (List.replicate 5 (some (35/4))) := by
  decide

/-- Claim C5 (amended): missing per-fish columns are not validated up front.
Extraction fails only when it actually reads a missing column: with
`recalculate_vel` off and `f{0}_vx` absent (the `t` column present and at
least one fish tracked), `extract_bouts` stops with the pandas `KeyError`;
any other missing column is silently dropped by `_rename_fish`, and the
column-count mismatch shifts the positional unit scaling inside the output
bout (see the counterexample). -/
theorem C5_amended (exp : FreelySwimmingExperiment) (cfg : ExtractConfig)
    (hrec : cfg.recalculate_vel = false)
    (ht : hasCol exp.behavior_log "t" = true)
    (hvx : hasCol exp.behavior_log (fishColName 0 "vx") = false)
    (hf : 1 ≤ exp.n_fish_max) :
    ∃ msg, extract_bouts exp cfg = Except.error msg := by
  obtain ⟨tc, htc⟩ : ∃ tc, getCol exp.behavior_log "t" = some tc := by
    cases hg : getCol exp.behavior_log "t" with
    | none =>
      rw [hasCol, hg] at ht
      simp at ht
    | some c => exact ⟨c, rfl⟩
  have hvx2 : getCol exp.behavior_log (fishColName 0 "vx") = none := by
    cases hg : getCol exp.behavior_log (fishColName 0 "vx") with
    | none => rfl
    | some c =>
      rw [hasCol, hg] at hvx
      simp at hvx
  have hvx3 : getCol (interpolateTable cfg.max_interpolate exp.behavior_log)
      (fishColName 0 "vx") = none := by
    rw [getCol_interpolateTable, hvx2]
    rfl
  obtain ⟨k, hk⟩ : ∃ k, exp.n_fish_max = k + 1 := ⟨exp.n_fish_max - 1, by omega⟩
  refine ⟨"KeyError: " ++ fishColName 0 "vx", ?_⟩
  simp only [extract_bouts, getColE, htc, hk, List.range_succ_eq_map]
  simp only [goFish, hrec, Bool.false_eq_true, if_false, fishActivity, getColE, hvx3]

/-- Witness for `C5_amended` on the log holding only `t`. -/
theorem C5_amended_witness :
    ∃ msg, extract_bouts exM cfg0 = Except.error msg :=
  C5_amended exM cfg0 rfl (by decide) (by decide) (by decide)

/-- Multiplying by NaN gives NaN. -/
theorem qmul_none_right (x : OQ) : qmul x none = none := by
  cases x <;> rfl

/-- A found column is a member of the table. -/
theorem getCol_mem : ∀ (df : Table) (nm : String) (c : Column),
    getCol df nm = some c → c ∈ df := by
  intro df
  induction df with
  | nil => intro nm c h; simp [getCol] at h
  | cons c0 rest ih =>
    intro nm c h
    simp only [getCol] at h
    by_cases hnm : c0.name = nm
    · rw [if_pos hnm] at h
      simp only [Option.some.injEq] at h
      rw [← h]
      exact List.mem_cons_self c0 rest
    · rw [if_neg hnm] at h
      exact List.mem_cons_of_mem c0 (ih nm c h)

/-- A present column can be fetched. -/
theorem getCol_of_hasCol {df : Table} {nm : String} (h : hasCol df nm = true) :
    ∃ c, getCol df nm = some c := by
  cases hg : getCol df nm with
  | none =>
    rw [hasCol, hg] at h
    simp at h
  | some c => exact ⟨c, rfl⟩

/-- `np.diff` of at most one sample is empty. -/
theorem diffO_short : ∀ (l : List OQ), l.length ≤ 1 → diffO l = [] := by
  intro l h
  cases l with
  | nil => rfl
  | cons a rest =>
    cases rest with
    | nil => rfl
    | cons b r => simp at h

/-- Mapping to a constant is replication. -/
theorem map_const_replicate {α β : Type} (c : β) :
    ∀ l : List α, l.map (fun _ => c) = List.replicate l.length c := by
  intro l
  induction l with
  | nil => rfl
  | cons a rest ih => simp [ih, List.replicate]

/-- Elements of a `zipWith` by a constantly-NaN function are NaN. -/
theorem mem_zipWith_none {f : OQ → OQ → OQ} (hf : ∀ a b, f a b = none) :
    ∀ (as bs : List OQ) (v : OQ), v ∈ List.zipWith f as bs → v = none := by
  intro as
  induction as with
  | nil => intro bs v hv; simp at hv
  | cons a r ih =>
    intro bs v hv
    cases bs with
    | nil => simp at hv
    | cons b rb =>
      simp only [List.zipWith_cons_cons] at hv
      rcases List.mem_cons.mp hv with h0 | hrest
      · rw [h0, hf]
      · exact ih rb v hrest

/-- `filterMap id` of an all-NaN list is empty. -/
theorem filterMap_id_none : ∀ (l : List OQ), (∀ v ∈ l, v = none) → l.filterMap id = [] := by
  intro l
  induction l with
  | nil => intro h; rfl
  | cons a rest ih =>
    intro h
    have ha : a = none := h a (List.mem_cons_self a rest)
    rw [ha]
    have hstep : (none :: rest).filterMap (id : OQ → Option ℚ) = rest.filterMap id := rfl
    rw [hstep]
    exact ih (fun v hv => h v (List.mem_cons_of_mem a hv))

/-- The rolling median of an all-NaN signal is all NaN. -/
theorem rollingMedian_none (w : Nat) (l : List OQ) (h : ∀ v ∈ l, v = none) :
    ∀ v ∈ rollingMedian w l, v = none := by
  intro v hv
  simp only [rollingMedian, List.mem_map] at hv
  obtain ⟨k, _, hk⟩ := hv
  rw [← hk]
  have hwin : ∀ x ∈ ((l.drop (k + 1 - w)).take (k + 1 - (k + 1 - w))), x = none :=
    fun x hx => h x (List.drop_subset _ _ (List.take_subset _ _ hx))
  rw [filterMap_id_none _ hwin]
  rfl

/-- Runs of an all-`false` mask: none. -/
theorem maskRunsGo_false : ∀ (l : List Bool) (j : Nat),
    (∀ b ∈ l, b = false) → maskRunsGo j none l = [] := by
  intro l
  induction l with
  | nil => intro j h; rfl
  | cons b rest ih =>
    intro j h
    have hb : b = false := h b (List.mem_cons_self b rest)
    rw [hb]
    have hstep : maskRunsGo j none (false :: rest) = maskRunsGo (j + 1) none rest := rfl
    rw [hstep]
    exact ih (j + 1) (fun x hx => h x (List.mem_cons_of_mem b hx))

/-- The segment extractor finds nothing in an all-NaN signal: NaN compares
below any threshold. -/
theorem segments_none (sig : List OQ) (h : ∀ v ∈ sig, v = none) (thr : ℚ)
    (mdur pb pa : Nat) (mf : Option Nat) :
    extract_segments_above_threshold sig thr mdur pb pa mf = ([], []) := by
  have hmask : ∀ (s2 : List OQ), (∀ v ∈ s2, v = none) →
      ∀ b ∈ s2.map (fun v => qgt v thr), b = false := by
    intro s2 h2 b hb
    obtain ⟨v, hv, hvb⟩ := List.mem_map.mp hb
    rw [← hvb, h2 v hv]
    rfl
  cases mf with
  | none =>
    simp only [extract_segments_above_threshold, maskRuns]
    rw [maskRunsGo_false _ 0 (hmask sig h)]
    simp [coalesce, continuityFlags]
  | some m =>
    simp only [extract_segments_above_threshold, maskRuns]
    rw [maskRunsGo_false _ 0 (hmask (sig.take m) (fun v hv => h v (List.take_subset _ _ hv)))]
    simp [coalesce, continuityFlags]

/-- An `.ok` activity signal built with a NaN global dt is NaN at every
frame: `(scale / dt) ** 2` is NaN, which absorbs everything. -/
theorem fishActivity_nan (dfx : Table) (i : Nat) (sc : ℚ) (md : Bool) (w : Nat)
    (sig : List OQ)
    (h : fishActivity dfx i sc none md w = Except.ok sig) :
    ∀ v ∈ sig, v = none := by
  simp only [fishActivity] at h
  split at h
  · simp at h
  · rename_i vx hvx
    split at h
    · simp at h
    · rename_i vy hvy
      simp only [Except.ok.injEq] at h
      have hfactor : ∀ a b : OQ,
          qmul (qadd (qmul a a) (qmul b b)) (qmul (qdiv (some sc) none) (qdiv (some sc) none))
            = none := by
        intro a b
        rw [show qmul (qdiv (some sc) none) (qdiv (some sc) none) = none from rfl]
        exact qmul_none_right _
      have hvel : ∀ v ∈ List.zipWith
          (fun a b => qmul (qadd (qmul a a) (qmul b b))
            (qmul (qdiv (some sc) none) (qdiv (some sc) none))) vx.vals vy.vals,
          v = none :=
        fun v hv => mem_zipWith_none hfactor vx.vals vy.vals v hv
      rw [← h]
      cases md with
      | false => simpa using hvel
      | true =>
        simpa using rollingMedian_none w _ hvel

/-- The names a fish's processing needs to find in the (interpolated) table:
with `recalculate_vel` the positions/orientation (the velocity columns are
then written before being read), otherwise the velocity columns themselves. -/
def neededCols (recalc : Bool) (i : Nat) : List String :=
  if recalc then [fishColName i "x", fishColName i "y", fishColName i "theta"]
  else [fishColName i "vx", fishColName i "vy"]

/-- Replacing one column's values preserves presence of every name. -/
theorem hasCol_replaceCol (nm nm2 : String) (vs : List OQ) :
    ∀ df : Table, hasCol (replaceCol df nm vs) nm2 = hasCol df nm2 := by
  intro df
  induction df with
  | nil => rfl
  | cons c rest ih =>
    simp only [replaceCol]
    by_cases hc : c.name = nm
    · rw [if_pos hc]
      simp only [hasCol, getCol]
      by_cases hc2 : c.name = nm2
      · rw [if_pos hc2, if_pos hc2]
        rfl
      · rw [if_neg hc2, if_neg hc2]
        simpa [hasCol] using ih
    · rw [if_neg hc]
      simp only [hasCol, getCol]
      by_cases hc2 : c.name = nm2
      · rw [if_pos hc2, if_pos hc2]
      · rw [if_neg hc2, if_neg hc2]
        simpa [hasCol] using ih

/-- Looking a name up in an appended table. -/
theorem getCol_append (l : Table) (nm : String) :
    ∀ df : Table, getCol (df ++ l) nm
      = (match getCol df nm with
          | some c => some c
          | none => getCol l nm) := by
  intro df
  induction df with
  | nil => rfl
  | cons c rest ih =>
    by_cases hc : c.name = nm <;> simp [getCol, hc, ih]

/-- `setCol` preserves every present column. -/
theorem hasCol_setCol (df : Table) (nm nm2 : String) (vs : List OQ)
    (h : hasCol df nm2 = true) : hasCol (setCol df nm vs) nm2 = true := by
  unfold setCol
  by_cases hh : hasCol df nm
  · rw [if_pos hh, hasCol_replaceCol]
    exact h
  · rw [if_neg hh, hasCol, getCol_append]
    obtain ⟨c, hc⟩ := getCol_of_hasCol h
    rw [hc]
    rfl

/-- `setCol` makes its own column present. -/
theorem hasCol_setCol_self (df : Table) (nm : String) (vs : List OQ) :
    hasCol (setCol df nm vs) nm = true := by
  unfold setCol
  by_cases hh : hasCol df nm
  · rw [if_pos hh, hasCol_replaceCol]
    exact hh
  · rw [if_neg hh, hasCol, getCol_append]
    cases hg : getCol df nm with
    | none => simp [getCol]
    | some c =>
      rw [hasCol, hg] at hh
      simp at hh

/-- Interpolation preserves column presence. -/
theorem hasCol_interpolateTable (k : Nat) (df : Table) (nm : String) :
    hasCol (interpolateTable k df) nm = hasCol df nm := by
  rw [hasCol, getCol_interpolateTable, hasCol]
  cases getCol df nm <;> rfl

/-- With the position/orientation columns present, the `recalculate_vel`
block succeeds, preserves every present column and leaves the fish's
velocity columns present. -/
theorem recalcFish_ok (dfint : Table) (i : Nat)
    (hx : hasCol dfint (fishColName i "x") = true)
    (hy : hasCol dfint (fishColName i "y") = true)
    (hth : hasCol dfint (fishColName i "theta") = true) :
    ∃ d2, recalcFish dfint i = Except.ok d2 ∧
      (∀ nm, hasCol dfint nm = true → hasCol d2 nm = true) ∧
      hasCol d2 (fishColName i "vx") = true ∧
      hasCol d2 (fishColName i "vy") = true := by
  obtain ⟨cx, hcx⟩ := getCol_of_hasCol hx
  have hy1 : hasCol (setCol dfint (fishColName i "vx") (recalcVelCol cx.vals))
      (fishColName i "y") = true := hasCol_setCol _ _ _ _ hy
  obtain ⟨cy, hcy⟩ := getCol_of_hasCol hy1
  have hth1 : hasCol (setCol (setCol dfint (fishColName i "vx") (recalcVelCol cx.vals))
      (fishColName i "vy") (recalcVelCol cy.vals)) (fishColName i "theta") = true :=
    hasCol_setCol _ _ _ _ (hasCol_setCol _ _ _ _ hth)
  obtain ⟨cth, hcth⟩ := getCol_of_hasCol hth1
  refine ⟨setCol (setCol (setCol dfint (fishColName i "vx") (recalcVelCol cx.vals))
      (fishColName i "vy") (recalcVelCol cy.vals)) (fishColName i "vtheta")
      (recalcVelCol cth.vals), ?_, ?_, ?_, ?_⟩
  · simp only [recalcFish, getColE, hcx, hcy, hcth]
  · intro nm h
    exact hasCol_setCol _ _ _ _ (hasCol_setCol _ _ _ _ (hasCol_setCol _ _ _ _ h))
  · exact hasCol_setCol _ _ _ _ (hasCol_setCol _ _ _ _ (hasCol_setCol_self _ _ _))
  · exact hasCol_setCol _ _ _ _ (hasCol_setCol_self _ _ _)

/-- With the velocity columns present, the activity signal is computed. -/
theorem fishActivity_ok (dfx : Table) (i : Nat) (sc : ℚ) (dt : OQ) (md : Bool) (w : Nat)
    (hvx : hasCol dfx (fishColName i "vx") = true)
    (hvy : hasCol dfx (fishColName i "vy") = true) :
    ∃ sig, fishActivity dfx i sc dt md w = Except.ok sig := by
  obtain ⟨cx, hcx⟩ := getCol_of_hasCol hvx
  obtain ⟨cy, hcy⟩ := getCol_of_hasCol hvy
  simp only [fishActivity, getColE, hcx, hcy]
  exact ⟨_, rfl⟩

/-- With a NaN global time step and the needed columns present, the per-fish
loop detects no bouts for any fish. -/
theorem goFish_nan (df : Table) (sc : ℚ) (nseg : Nat) (rc md : Bool) (w : Nat)
    (t2 : ℚ) (mdur pb pa : Nat) (mf : Option Nat) :
    ∀ (l : List Nat) (dfx : Table),
      (∀ i ∈ l, ∀ nm ∈ neededCols rc i, hasCol dfx nm = true) →
      goFish df sc none nseg rc md w t2 mdur pb pa mf l dfx
        = Except.ok (l.map (fun _ => []), l.map (fun _ => [])) := by
  intro l
  induction l with
  | nil => intro dfx hp; rfl
  | cons i rest ih =>
    intro dfx hp
    cases rc with
    | false =>
      have hvx : hasCol dfx (fishColName i "vx") = true :=
        hp i (List.mem_cons_self i rest) _ (by simp [neededCols])
      have hvy : hasCol dfx (fishColName i "vy") = true :=
        hp i (List.mem_cons_self i rest) _ (by simp [neededCols])
      obtain ⟨sig, hsig⟩ := fishActivity_ok dfx i sc none md w hvx hvy
      have hnan := fishActivity_nan dfx i sc md w sig hsig
      have hseg := segments_none sig hnan t2 mdur pb pa mf
      simp only [goFish, Bool.false_eq_true, if_false, hsig, hseg, mapMExc]
      rw [ih dfx (fun i2 hi2 nm hnm => hp i2 (List.mem_cons_of_mem i hi2) nm hnm)]
      simp
    | true =>
      have hx : hasCol dfx (fishColName i "x") = true :=
        hp i (List.mem_cons_self i rest) _ (by simp [neededCols])
      have hy : hasCol dfx (fishColName i "y") = true :=
        hp i (List.mem_cons_self i rest) _ (by simp [neededCols])
      have hth : hasCol dfx (fishColName i "theta") = true :=
        hp i (List.mem_cons_self i rest) _ (by simp [neededCols])
      obtain ⟨d2, hd2, hmono, hvx2, hvy2⟩ := recalcFish_ok dfx i hx hy hth
      obtain ⟨sig, hsig⟩ := fishActivity_ok d2 i sc none md w hvx2 hvy2
      have hnan := fishActivity_nan d2 i sc md w sig hsig
      have hseg := segments_none sig hnan t2 mdur pb pa mf
      simp only [goFish, if_true, hd2, hsig, hseg, mapMExc]
      rw [ih d2 (fun i2 hi2 nm hnm => hmono nm (hp i2 (List.mem_cons_of_mem i hi2) nm hnm))]
      simp

/-- Claim C9: the time step `extract_bouts` uses to scale the activity
signal is the single global `np.mean(np.diff(df.t[100:200]))` (`globalDt`);
on a well-formed log of at most 101 frames (and at least one) it is NaN, the
activity signal is NaN at every frame for every fish, and no bouts are
detected for any fish. -/
theorem C9_short_log_no_bouts (exp : FreelySwimmingExperiment) (cfg : ExtractConfig)
    (hu : uniform exp.behavior_log = true)
    (h1 : 1 ≤ nRows exp.behavior_log)
    (h101 : nRows exp.behavior_log ≤ 101)
    (ht : hasCol exp.behavior_log "t" = true)
    (hcols : ∀ i, i < exp.n_fish_max →
      ∀ nm ∈ neededCols cfg.recalculate_vel i, hasCol exp.behavior_log nm = true) :
    (∀ tc, getCol exp.behavior_log "t" = some tc → globalDt tc.vals = none) ∧
      (∀ dfx i sig, fishActivity dfx i (effectiveScale exp cfg) none
          cfg.median_vel cfg.window_size = Except.ok sig → ∀ v ∈ sig, v = none) ∧
      extract_bouts exp cfg = Except.ok
        (List.replicate exp.n_fish_max [], List.replicate exp.n_fish_max [],
          exp.behavior_log) := by
  obtain ⟨tc, htc⟩ := getCol_of_hasCol ht
  have hdtnone : globalDt tc.vals = none := by
    have hmem := getCol_mem _ _ _ htc
    have hlen : tc.vals.length = nRows exp.behavior_log := by
      have hb := List.all_eq_true.mp hu tc hmem
      exact beq_iff_eq.mp hb
    have hshort : ((tc.vals.drop 100).take 100).length ≤ 1 := by
      simp only [List.length_take, List.length_drop]
      omega
    rw [globalDt, diffO_short _ hshort]
    rfl
  refine ⟨?_, ?_, ?_⟩
  · intro tc2 htc2
    rw [htc] at htc2
    cases htc2
    exact hdtnone
  · intro dfx i sig hs
    exact fishActivity_nan dfx i (effectiveScale exp cfg) cfg.median_vel
      cfg.window_size sig hs
  · simp only [extract_bouts, getColE, htc, hdtnone]
    rw [goFish_nan exp.behavior_log (effectiveScale exp cfg) (exp.n_segments - 1)
        cfg.recalculate_vel cfg.median_vel cfg.window_size
        (cfg.threshold * cfg.threshold) cfg.min_duration cfg.pad_before
        cfg.pad_after cfg.max_frames (List.range exp.n_fish_max)
        (interpolateTable cfg.max_interpolate exp.behavior_log)
        (fun i hi nm hnm => by
          rw [hasCol_interpolateTable]
          exact hcols i (List.mem_range.mp hi) nm hnm)]
    simp [map_const_replicate, List.length_range]

/-- Witness for `C9_short_log_no_bouts` on the three-frame log. -/
theorem C9_short_log_no_bouts_witness :
    extract_bouts exp3 cfg0 = Except.ok
      (List.replicate exp3.n_fish_max [], List.replicate exp3.n_fish_max [],
        exp3.behavior_log) :=
  (C9_short_log_no_bouts exp3 cfg0 (by decide) (by decide) (by decide) (by decide)
    (by decide)).2.2

/-- A named column exists and holds at least one row. -/
def colNonempty (b : Table) (nm : String) : Bool :=
  match getCol b nm with
  | some c => !c.vals.isEmpty
  | none => false

/-- A genuine Bout as `extract_bouts` produces it: nonempty, with the
canonical `t, x, y, theta` columns the summariser reads. -/
def goodBout (b : Table) : Bool :=
  colNonempty b "t" && colNonempty b "x" && colNonempty b "y" && colNonempty b "theta"

/-- A nonempty list has a last element. -/
theorem getLast?_isSome_of_ne_nil : ∀ (l : List OQ), l ≠ [] → ∃ v, l.getLast? = some v := by
  intro l
  induction l with
  | nil => intro h; exact absurd rfl h
  | cons a rest ih =>
    intro _
    cases rest with
    | nil => exact ⟨a, rfl⟩
    | cons b r2 =>
      obtain ⟨v, hv⟩ := ih (by simp)
      exact ⟨v, by rw [List.getLast?_cons_cons]; exact hv⟩

/-- First/last extraction succeeds on a present nonempty column. -/
theorem colFirstLast_ok (b : Table) (nm : String) (h : colNonempty b nm = true) :
    ∃ p, colFirstLast b nm = Except.ok p := by
  unfold colNonempty at h
  cases hg : getCol b nm with
  | none =>
    rw [hg] at h
    simp at h
  | some c =>
    rw [hg] at h
    have hred : (match some c with
        | some c2 => !c2.vals.isEmpty
        | none => false) = Bool.not c.vals.isEmpty := rfl
    rw [hred] at h
    have hne : c.vals ≠ [] := by
      intro hnil
      rw [hnil] at h
      simp at h
    obtain ⟨v1, hv1⟩ := getLast?_isSome_of_ne_nil c.vals hne
    have hv0 : ∃ v0, c.vals.head? = some v0 := by
      cases hv : c.vals with
      | nil => exact absurd hv hne
      | cons a r => exact ⟨a, rfl⟩
    obtain ⟨v0, hv0⟩ := hv0
    exact ⟨(v0, v1), by simp only [colFirstLast, hg, hv0, hv1]⟩

/-- A summary row is produced for every genuine bout. -/
theorem summaryRow_ok (b : Table) (h : goodBout b = true) :
    ∃ r, summaryRow b = Except.ok r := by
  simp only [goodBout, Bool.and_eq_true] at h
  obtain ⟨⟨⟨ht, hx⟩, hy⟩, hth⟩ := h
  obtain ⟨pt, hpt⟩ := colFirstLast_ok b "t" ht
  obtain ⟨px, hpx⟩ := colFirstLast_ok b "x" hx
  obtain ⟨py, hpy⟩ := colFirstLast_ok b "y" hy
  obtain ⟨pth, hpth⟩ := colFirstLast_ok b "theta" hth
  simp only [summaryRow, hpt, hpx, hpy, hpth]
  exact ⟨_, rfl⟩

/-- If every element maps to `.ok`, the whole `mapMExc` is `.ok` with the
same length. -/
theorem mapMExc_ok_of_all {α β : Type} {f : α → Except String β} :
    ∀ {l : List α}, (∀ x ∈ l, ∃ y, f x = Except.ok y) →
      ∃ ys, mapMExc f l = Except.ok ys ∧ ys.length = l.length := by
  intro l
  induction l with
  | nil => intro _; exact ⟨[], rfl, rfl⟩
  | cons a rest ih =>
    intro h
    obtain ⟨y, hy⟩ := h a (List.mem_cons_self a rest)
    obtain ⟨ys, hys, hlen⟩ := ih (fun x hx => h x (List.mem_cons_of_mem a hx))
    refine ⟨y :: ys, ?_, by simp [hlen]⟩
    simp only [mapMExc, hy, hys]

/-- Membership in a concatenation comes from some member list. -/
theorem concatAll_mem {α : Type} : ∀ (l : List (List α)) (b : α),
    b ∈ concatAll l → ∃ l2 ∈ l, b ∈ l2 := by
  intro l
  induction l with
  | nil => intro b hb; simp [concatAll] at hb
  | cons l0 rest ih =>
    intro b hb
    simp only [concatAll] at hb
    rcases List.mem_append.mp hb with h0 | hr
    · exact ⟨l0, List.mem_cons_self l0 rest, h0⟩
    · obtain ⟨l2, hl2, hbl2⟩ := ih b hr
      exact ⟨l2, List.mem_cons_of_mem l0 hl2, hbl2⟩

/-- Length of a concatenation. -/
theorem concatAll_length {α : Type} : ∀ (l : List (List α)),
    (concatAll l).length = (l.map List.length).sum := by
  intro l
  induction l with
  | nil => rfl
  | cons l0 rest ih => simp [concatAll, ih]

/-- Length of the origin-fish vector. -/
theorem originFishGo_length : ∀ (bouts : List (List Table)) (j : Nat),
    (originFishGo j bouts).length = (bouts.map List.length).sum := by
  intro bouts
  induction bouts with
  | nil => intro j; rfl
  | cons l rest ih =>
    intro j
    simp [originFishGo, ih (j + 1)]

/-- The eight summary headers do not contain `i_fish`. -/
theorem summaryBase_no_ifish (rows : List (List OQ)) :
    hasCol (summaryBase rows) "i_fish" = false := by
  simp only [summaryBase, hasCol, getCol]
  rw [if_neg (by decide), if_neg (by decide), if_neg (by decide), if_neg (by decide),
    if_neg (by decide), if_neg (by decide), if_neg (by decide), if_neg (by decide)]
  rfl

/-- Claim C7: for genuine per-fish bout lists (at least one fish list — with
none at all `np.empty` receives a float dimension and raises — and each bout
nonempty with the canonical columns), the summary table has exactly one row
per bout, and carries an `i_fish` column iff more than one fish list was
passed. -/
theorem C7_summary_shape (bouts : List (List Table)) (hne : bouts ≠ [])
    (hgood : bouts.all (fun l => l.all goodBout) = true) :
    ∃ out, summarize_bouts bouts none = Except.ok out ∧
      nRows out = (bouts.map List.length).sum ∧
      (hasCol out "i_fish" = true ↔ 1 < bouts.length) := by
  have hgood2 : ∀ b ∈ concatAll bouts, goodBout b = true := by
    intro b hb
    obtain ⟨l2, hl2, hbl2⟩ := concatAll_mem bouts b hb
    exact List.all_eq_true.mp (List.all_eq_true.mp hgood l2 hl2) b hbl2
  obtain ⟨rows, hmap, hlen⟩ :=
    mapMExc_ok_of_all (fun b hb => summaryRow_ok b (hgood2 b hb))
  have hempty : bouts.isEmpty = false := by
    cases bouts with
    | nil => exact absurd rfl hne
    | cons l rest => rfl
  refine ⟨if 1 < bouts.length then ⟨"i_fish", originFish bouts⟩ :: summaryBase rows
      else summaryBase rows, ?_, ?_, ?_⟩
  · simp only [summarize_bouts, hempty, Bool.false_eq_true, if_false, hmap]
  · by_cases h1 : 1 < bouts.length
    · rw [if_pos h1]
      show (originFish bouts).length = (bouts.map List.length).sum
      exact originFishGo_length bouts 0
    · rw [if_neg h1]
      show (rows.map (fun r => r.getD 0 none)).length = (bouts.map List.length).sum
      rw [List.length_map, hlen, concatAll_length]
  · by_cases h1 : 1 < bouts.length
    · rw [if_pos h1]
      constructor
      · intro _; exact h1
      · intro _
        simp [hasCol, getCol]
    · rw [if_neg h1]
      rw [summaryBase_no_ifish]
      constructor
      · intro hfalse; exact absurd hfalse (by simp)
      · intro hgt; exact absurd hgt h1

/-- Witness for `C7_summary_shape`: two fish lists with one and two bouts. -/
theorem C7_summary_shape_witness :
    ∃ out, summarize_bouts [[boutA], [boutB, boutC]] none = Except.ok out ∧
      nRows out = ([[boutA], [boutB, boutC]].map List.length).sum ∧
      (hasCol out "i_fish" = true ↔ 1 < ([[boutA], [boutB, boutC]] : List (List Table)).length) :=
  C7_summary_shape [[boutA], [boutB, boutC]] (by decide) (by decide)
